import Mathlib

/-!
Verification of the nginx log-analyzer module (`log_analyzer.py`).

This file gives a shallow embedding of the module's core functions —
filename selection (`select_last_logfile`), line parsing
(`parse_logfile_line` / `parse_logfile`) and streaming aggregation with
finalization (`get_logfile_stats`) — and proves the stated properties of
the specification against them.

Modelling conventions:
* Python `float` values are modelled as exact rationals (`ℚ`); the
  3-decimal formatting `float(format(x, ".3f"))` / `f"{x:.3f}"` is
  modelled by `round3`, rounding to the nearest multiple of `1/1000`.
* Python functions that can raise are embedded as `Except PyErr` (or
  `Option`) valued functions; an uncaught exception is an `.error` value.
* The lazy generator handed to `get_logfile_stats` is modelled as the
  finite list of the outcomes it yields (`List (Option LogfileLineInfo)`).
* Python `dict` / `defaultdict(list)` are modelled as insertion-ordered
  association lists (`alistGet` / `alistSet`), which reproduces both the
  lookup behaviour and the iteration order (`dict.values`) of CPython.
-/

namespace LogAnalyzer

set_option maxRecDepth 20000

/-! ## Rationals standing in for Python floats -/

/-- Floor of a rational, computed from its normalized numerator and
denominator (`Int.fdiv` is floor division; the denominator is positive). -/
def qfloor (q : ℚ) : ℤ := Int.fdiv q.num q.den

/-- Model of `float(format(x, ".3f"))` and `f"{x:.3f}"` from the source:
rounding to the nearest multiple of `1/1000` (ties round up; the values
arising in this development are never ties, so the tie-breaking convention
is immaterial). -/
def round3 (q : ℚ) : ℚ := (qfloor (q * 1000 + 1/2) : ℚ) / 1000

/-- Numeric value of a decimal digit string, most significant digit first. -/
def toNatDigits (s : List Char) : ℕ :=
  s.foldl (fun a c => 10 * a + (c.toNat - '0'.toNat)) 0

/-- Model of Python `int(s)` on the strings this module feeds it
(the regex groups `\d{3}` and `\d+`): digit strings convert to their
value, anything else raises `ValueError` (here: `none`). -/
def parseIntPy (s : List Char) : Option ℤ :=
  if s ≠ [] ∧ s.all Char.isDigit then some (toNatDigits s : ℤ) else none

/-- Model of Python `float(s)` on the strings this module feeds it
(the regex group `\d+\.?\d*`): an integer part, optionally followed by a
dot and a fractional part, converts to its exact rational value; anything
else raises `ValueError` (here: `none`). -/
def parseFloatQ (s : List Char) : Option ℚ :=
  let intPart := s.takeWhile Char.isDigit
  let rest := s.dropWhile Char.isDigit
  if intPart = [] then none
  else
    match rest with
    | [] => some (toNatDigits intPart : ℚ)
    | '.' :: frac =>
      if frac.all Char.isDigit then
        some ((toNatDigits intPart : ℚ) + (toNatDigits frac : ℚ) / (10 : ℚ) ^ frac.length)
      else none
    | _ => none

/-! ## The logfile selector (`select_last_logfile`) -/

/-- Model of `datetime.date`: a plain year/month/day triple. -/
structure PyDate where
  year : ℕ
  month : ℕ
  day : ℕ
deriving DecidableEq

/-- `datetime.date` comparison: lexicographic on (year, month, day). -/
def PyDate.ltb (a b : PyDate) : Bool :=
  a.year < b.year ||
    (a.year == b.year &&
      (a.month < b.month || (a.month == b.month && a.day < b.day)))

/-- `datetime.date.min`, the initial `date` of the selector's accumulator. -/
def date_min : PyDate := ⟨1, 1, 1⟩

/-- Gregorian leap-year rule, as used by `datetime`. -/
def isLeapYear (y : ℕ) : Bool := y % 4 == 0 && (y % 100 != 0 || y % 400 == 0)

/-- Number of days in a month, as used by `datetime`. -/
def daysInMonth (y m : ℕ) : ℕ :=
  if m = 2 then (if isLeapYear y then 29 else 28)
  else if m = 4 ∨ m = 6 ∨ m = 9 ∨ m = 11 then 30
  else 31

/-- Model of the `datetime.date(year, month, day)` constructor: it raises
`ValueError` (here: `none`) unless the triple is a real calendar date in
`datetime`'s supported year range. -/
def mkDate (y m d : ℕ) : Option PyDate :=
  if 1 ≤ y ∧ y ≤ 9999 ∧ 1 ≤ m ∧ m ≤ 12 ∧ 1 ≤ d ∧ d ≤ daysInMonth y m then
    some ⟨y, m, d⟩
  else none

/-- `LogfileType` enum from the source. -/
inductive LogfileType where
  | PLAIN
  | GZIP
deriving DecidableEq

/-- `LogfileInfo` namedtuple from the source.  The loop accumulator starts
as `LogfileInfo(path=None, date=datetime.date.min, type=None)`, so `path`
and `type` are optional. -/
structure LogfileInfo where
  path : Option String
  date : PyDate
  type : Option LogfileType
deriving DecidableEq

/-- `[01]\d` character class. -/
def is01 (c : Char) : Bool := c == '0' || c == '1'

/-- `[0-3]\d` leading character class. -/
def is03 (c : Char) : Bool := c == '0' || c == '1' || c == '2' || c == '3'

/-- The anchored filename regex
`^nginx-access-ui.log-(19\d\d|20\d\d)([01]\d)([0-3]\d)(\.gz|)$`,
transcribed directly as a deterministic matcher (all of its alternations
are disjoint on the first character, so a backtracking engine and this
direct transcription accept exactly the same strings).  The unescaped `.`
after `ui` matches any character except a newline.  On success it returns
the numeric values of groups 1–3 (`int(...)` of digit strings) and the
`LogfileType` determined by group 4. -/
def matchFilename (s : List Char) : Option (ℕ × ℕ × ℕ × LogfileType) :=
  match s with
  | p0 :: p1 :: p2 :: p3 :: p4 :: p5 :: p6 :: p7 :: p8 :: p9 :: p10 :: p11 :: p12 :: p13 ::
      p14 :: c15 :: p16 :: p17 :: p18 :: p19 ::
      y1 :: y2 :: y3 :: y4 :: m1 :: m2 :: d1 :: d2 :: rest =>
    if [p0, p1, p2, p3, p4, p5, p6, p7, p8, p9, p10, p11, p12, p13, p14] =
          "nginx-access-ui".data ∧
        c15 ≠ '\n' ∧
        [p16, p17, p18, p19] = "log-".data ∧
        ((y1 = '1' ∧ y2 = '9') ∨ (y1 = '2' ∧ y2 = '0')) ∧ y3.isDigit ∧ y4.isDigit ∧
        is01 m1 ∧ m2.isDigit ∧ is03 d1 ∧ d2.isDigit then
      match rest with
      | [] =>
        some (toNatDigits [y1, y2, y3, y4], toNatDigits [m1, m2], toNatDigits [d1, d2],
          LogfileType.PLAIN)
      | ['.', 'g', 'z'] =>
        some (toNatDigits [y1, y2, y3, y4], toNatDigits [m1, m2], toNatDigits [d1, d2],
          LogfileType.GZIP)
      | _ => none
    else none
  | _ => none

/-- One iteration's `try` block in `select_last_logfile`: match the entry
against the filename pattern and build a `datetime.date` from its groups.
Both a failed match (`match.group(1)` raising `AttributeError` on `None`)
and an impossible date (`datetime.date` raising `ValueError`) are caught
by the `except Exception` clause and yield `none` (the entry is logged and
skipped). -/
def fileDate (entry : String) : Option (PyDate × LogfileType) :=
  match matchFilename entry.data with
  | none => none
  | some (y, m, d, ty) =>
    match mkDate y m d with
    | none => none
    | some dt => some (dt, ty)

/-- The `for entry in files` loop of `select_last_logfile`, with the
accumulator `result` made explicit.  A parsed date strictly greater than
`result.date` replaces the accumulator; if that date equals `today` the
loop `break`s. -/
def select_loop (today : PyDate) : List String → LogfileInfo → LogfileInfo
  | [], result => result
  | entry :: files, result =>
    match fileDate entry with
    | none => select_loop today files result
    | some (cur_date, ty) =>
      if result.date.ltb cur_date then
        let result' : LogfileInfo := ⟨some entry, cur_date, some ty⟩
        if cur_date = today then result' else select_loop today files result'
      else select_loop today files result

/-- `select_last_logfile(files)` from the source; `datetime.date.today()`
is passed explicitly.  Returns `none` when no entry ever matched with a
constructible date (the accumulator's `path` is still `None`). -/
def select_last_logfile (today : PyDate) (files : List String) : Option LogfileInfo :=
  let result := select_loop today files ⟨none, date_min, none⟩
  if result.path ≠ none then some result else none

/-! ## The line parser (`parse_logfile_line`)

The log-line regex is matched by a small backtracking engine.  Every
quantifier in the source pattern ranges over a single-character class, so
the abstract syntax only needs starred character classes (greedy `starG`
for `+`/`*`, lazy `starL` for `*?`), sequencing, alternation (for `\.?`),
numbered capture groups and single-character classes. -/

/-- Abstract syntax of the fragment of Python regexes used by
`logfile_line_pattern`. -/
inductive Re where
  | eps : Re
  | cls (f : Char → Bool) : Re
  | seq (a b : Re) : Re
  | alt (a b : Re) : Re
  | starG (f : Char → Bool) : Re
  | starL (f : Char → Bool) : Re
  | group (n : ℕ) (a : Re) : Re

/-- Remaining-input candidates for a greedy `f*`, most-consumed first
(the order a backtracking engine tries them in). -/
def greedyTails (f : Char → Bool) : List Char → List (List Char)
  | [] => [[]]
  | c :: t => if f c then greedyTails f t ++ [c :: t] else [c :: t]

/-- Remaining-input candidates for a lazy `f*?`, least-consumed first. -/
def lazyTails (f : Char → Bool) : List Char → List (List Char)
  | [] => [[]]
  | c :: t => if f c then (c :: t) :: lazyTails f t else [c :: t]

/-- All ways a pattern can match a prefix of the input, in backtracking
priority order.  Each candidate carries its captured groups (group number,
captured characters) and the remaining input.  The first candidate is the
match Python's `re.match` commits to. -/
def Re.mtch : Re → List Char → List (List (ℕ × List Char) × List Char)
  | .eps, s => [([], s)]
  | .cls _, [] => []
  | .cls f, c :: s => if f c then [([], s)] else []
  | .seq a b, s =>
    (a.mtch s).flatMap fun p => (b.mtch p.2).map fun q => (p.1 ++ q.1, q.2)
  | .alt a b, s => a.mtch s ++ b.mtch s
  | .starG f, s => (greedyTails f s).map (fun t => ([], t))
  | .starL f, s => (lazyTails f s).map (fun t => ([], t))
  | .group n a, s =>
    (a.mtch s).map fun p => ((n, s.take (s.length - p.2.length)) :: p.1, p.2)

/-- `re.match(pattern, line)`: the pattern is anchored at the start of the
input, the highest-priority match wins, and (the pattern having no `$`)
the remaining input is unconstrained.  Returns the captured groups, or
`none` when the pattern does not match. -/
def reMatch (p : Re) (s : List Char) : Option (List (ℕ × List Char)) :=
  ((p.mtch s).head?).map (·.1)

/-- Python `\s` (ASCII white-space characters). -/
def isSpaceChar (c : Char) : Bool :=
  c == ' ' || c == '\t' || c == '\n' || c == '\r' || c == '\x0b' || c == '\x0c'

/-- Python `\S`. -/
def isNonSpace (c : Char) : Bool := !isSpaceChar c

/-- Python `.` (any character except a newline; `re.DOTALL` is off). -/
def isAnyChar (c : Char) : Bool := c != '\n'

/-- `[A-Z]`. -/
def isUpperAZ (c : Char) : Bool := 'A' ≤ c && c ≤ 'Z'

/-- `f+` desugars to `f f*` (greedy). -/
def rplus (f : Char → Bool) : Re := .seq (.cls f) (.starG f)

/-- `f?` desugars to `(f | ε)` — the one-character branch is preferred. -/
def ropt (f : Char → Bool) : Re := .alt (.cls f) .eps

/-- A single literal character. -/
def rchar (c : Char) : Re := .cls (· == c)

/-- Sequencing of a list of patterns. -/
def rcat (l : List Re) : Re := l.foldr .seq .eps

/-- `\"(.*?)\"` — a quoted lazy capture, as used for the five header
fields. -/
def quotedGroup (n : ℕ) : Re := rcat [rchar '"', .group n (.starL isAnyChar), rchar '"']

/-- The source's `logfile_line_pattern`, transcribed clause by clause:
```
^([\S]+)\s+ ([\S]+)\s+ ([\S]+)\s+ \[(.*?)\]\s+
\"([A-Z]+\s+(\S+)\s+.*?)\"\s+ (\d{3})\s+ (\d+)\s+
\"(.*?)\"\s+ ×5  (\d+\.?\d*)
```
Group numbers follow the order of opening parentheses in the source. -/
def logfile_line_patter_obj : Re := rcat [
  .group 1 (rplus isNonSpace), rplus isSpaceChar,
  .group 2 (rplus isNonSpace), rplus isSpaceChar,
  .group 3 (rplus isNonSpace), rplus isSpaceChar,
  rchar '[', .group 4 (.starL isAnyChar), rchar ']', rplus isSpaceChar,
  rchar '"',
  .group 5 (rcat [rplus isUpperAZ, rplus isSpaceChar, .group 6 (rplus isNonSpace),
    rplus isSpaceChar, .starL isAnyChar]),
  rchar '"', rplus isSpaceChar,
  .group 7 (rcat [.cls Char.isDigit, .cls Char.isDigit, .cls Char.isDigit]),
  rplus isSpaceChar,
  .group 8 (rplus Char.isDigit), rplus isSpaceChar,
  quotedGroup 9, rplus isSpaceChar,
  quotedGroup 10, rplus isSpaceChar,
  quotedGroup 11, rplus isSpaceChar,
  quotedGroup 12, rplus isSpaceChar,
  quotedGroup 13, rplus isSpaceChar,
  .group 14 (rcat [rplus Char.isDigit, ropt (· == '.'), .starG Char.isDigit])]

/-- `LogfileLineInfo` namedtuple from the source (after the `_replace`
that coerces `status`, `body_bytes_sent` and `request_time`). -/
structure LogfileLineInfo where
  remote_addr : String
  remote_user : String
  http_x_real_ip : String
  time_local : String
  request : String
  URL : String
  status : ℤ
  body_bytes_sent : ℤ
  http_referer : String
  http_user_agent : String
  http_x_forwarded_for : String
  http_X_REQUEST_ID : String
  http_X_RB_USER : String
  request_time : ℚ
deriving DecidableEq

/-- `parse_logfile_line(line)` from the source.  A failed regex match
raises `ValueError("incorrect line structure")`; the subsequent
`int()` / `float()` coercions of groups 7, 8 and 14 also raise
`ValueError` when they fail.  Either way the result is `.error`; on
success the fully coerced record is returned (groups 1–14 are bound to
the namedtuple fields in order). -/
def parse_logfile_line (line : String) : Except String LogfileLineInfo :=
  match reMatch logfile_line_patter_obj line.data with
  | none => .error "incorrect line structure"
  | some g =>
    let grp : ℕ → List Char := fun n => (g.lookup n).getD []
    match parseIntPy (grp 7), parseIntPy (grp 8), parseFloatQ (grp 14) with
    | some st, some bb, some rt =>
      .ok
        { remote_addr := String.mk (grp 1)
          remote_user := String.mk (grp 2)
          http_x_real_ip := String.mk (grp 3)
          time_local := String.mk (grp 4)
          request := String.mk (grp 5)
          URL := String.mk (grp 6)
          status := st
          body_bytes_sent := bb
          http_referer := String.mk (grp 9)
          http_user_agent := String.mk (grp 10)
          http_x_forwarded_for := String.mk (grp 11)
          http_X_REQUEST_ID := String.mk (grp 12)
          http_X_RB_USER := String.mk (grp 13)
          request_time := rt }
    | _, _, _ => .error "invalid literal"

/-- The per-line body of `parse_logfile`'s loop: `yield` the parsed record,
or catch the `ValueError`, log a warning, and `yield` (i.e. yield `None`).
No other exception escapes. -/
def parse_logfile_outcome (line : String) : Option LogfileLineInfo :=
  match parse_logfile_line line with
  | .ok info => some info
  | .error _ => none

/-- `parse_logfile` as the list of outcomes its generator yields, one per
line of the (already decoded) file. -/
def parse_logfile (lines : List String) : List (Option LogfileLineInfo) :=
  lines.map parse_logfile_outcome

/-! ## The streaming aggregator and finalizer (`get_logfile_stats`) -/

/-- `URLStats` namedtuple from the source.  During aggregation the
percentage / average / median fields hold their initial `0.0`; the
finalization loop replaces them (in Python, with their `.3f`-formatted
values — modelled here as the correspondingly rounded rationals). -/
structure URLStats where
  url : String
  count : ℕ
  count_perc : ℚ
  time_sum : ℚ
  time_perc : ℚ
  time_avg : ℚ
  time_max : ℚ
  time_med : ℚ
deriving DecidableEq

/-- Lookup in an insertion-ordered association list (Python `dict.get`,
keys unique). -/
def alistGet {α : Type} : List (String × α) → String → Option α
  | [], _ => none
  | (k', v) :: t, k => if k' = k then some v else alistGet t k

/-- Update in an insertion-ordered association list (Python
`dict[k] = v`): an existing key keeps its position, a new key is appended
at the end. -/
def alistSet {α : Type} : List (String × α) → String → α → List (String × α)
  | [], k, v => [(k, v)]
  | (k', v') :: t, k, v => if k' = k then (k, v) :: t else (k', v') :: alistSet t k v

/-- Exceptions `get_logfile_stats` can raise. -/
inductive PyErr where
  | zeroDivisionError : PyErr
  | runtimeError (msg : String) : PyErr
  | statisticsError : PyErr
deriving DecidableEq

/-- `ERROR_THRESHOLD = 0.2` from the source (the float literal modelled as
the exact rational). -/
def ERROR_THRESHOLD : ℚ := 1/5

/-- The mutable loop state of `get_logfile_stats`: the `stats` dict, the
line counters, `summary_time`, and the `req_times` defaultdict. -/
structure AggState where
  stats : List (String × URLStats)
  total_lines : ℕ
  err_lines : ℕ
  summary_time : ℚ
  req_times : List (String × List ℚ)
deriving DecidableEq

/-- The state before the first iteration. -/
def initState : AggState := ⟨[], 0, 0, 0, []⟩

/-- One iteration of the `for info in logfile_parser(...)` loop:
increment `total_lines`; on a `None` outcome increment `err_lines` and
`continue`; otherwise create the URL's `URLStats` (first observation) or
update it (`count + 1`, `time_sum` re-rounded to 3 decimals, `time_max`),
then add the duration to `summary_time` and append it to
`req_times[URL]` (a `defaultdict(list)`). -/
def aggStep (st : AggState) (o : Option LogfileLineInfo) : AggState :=
  let st := { st with total_lines := st.total_lines + 1 }
  match o with
  | none => { st with err_lines := st.err_lines + 1 }
  | some info =>
    let stats' :=
      match alistGet st.stats info.URL with
      | none =>
        alistSet st.stats info.URL
          { url := info.URL
            count := 1
            count_perc := 0
            time_sum := info.request_time
            time_perc := 0
            time_avg := 0
            time_max := info.request_time
            time_med := 0 }
      | some s =>
        alistSet st.stats info.URL
          { s with
            count := s.count + 1
            time_sum := round3 (s.time_sum + info.request_time)
            time_max := max s.time_max info.request_time }
    { st with
      stats := stats'
      summary_time := st.summary_time + info.request_time
      req_times :=
        alistSet st.req_times info.URL
          (((alistGet st.req_times info.URL).getD []) ++ [info.request_time]) }

/-- The whole aggregation loop, folded over the outcomes the injected
parser yields. -/
def aggregate (outcomes : List (Option LogfileLineInfo)) : AggState :=
  outcomes.foldl aggStep initState

/-- Stable insertion of a row into a list that is sorted by descending
`time_sum`: the row goes in front of the first element whose `time_sum`
is not greater than its own. -/
def insertByTimeSum (x : URLStats) : List URLStats → List URLStats
  | [] => [x]
  | y :: ys => if x.time_sum < y.time_sum then y :: insertByTimeSum x ys else x :: y :: ys

/-- Model of `sorted(list(stats.values()), key=lambda x: x.time_sum,
reverse=True)`: a stable descending sort by `time_sum`.  Python's `sorted`
is specified to be stable, and a stable sort's output is uniquely
determined by that specification, so this insertion sort computes exactly
the list CPython produces. -/
def sortStats (l : List URLStats) : List URLStats := l.foldr insertByTimeSum []

/-- Stable ascending insertion for rationals. -/
def insertAsc (x : ℚ) : List ℚ → List ℚ
  | [] => [x]
  | y :: ys => if x ≤ y then x :: y :: ys else y :: insertAsc x ys

/-- Ascending sort of the duration list (as `statistics.median` sorts its
data). -/
def sortAsc (l : List ℚ) : List ℚ := l.foldr insertAsc []

/-- `statistics.median(data)`: sort; an empty list raises
`StatisticsError`; an odd-length list yields the middle element, an
even-length one the mean of the two middle elements. -/
def median (data : List ℚ) : Except PyErr ℚ :=
  let s := sortAsc data
  let n := s.length
  if n = 0 then .error .statisticsError
  else if n % 2 = 1 then .ok (s.getD (n / 2) 0)
  else .ok ((s.getD (n / 2 - 1) 0 + s.getD (n / 2) 0) / 2)

/-- The body of the finalization loop: replace the percentage / average /
median fields of one retained row.  Python evaluates the `_replace`
arguments in order (`count_perc`, `time_perc`, `time_avg`, `time_med`),
so a zero denominator in one of the divisions, or a `median` of an empty
list, raises at exactly that point; the checks below reproduce that
order. -/
def finalize_row (total_lines err_lines : ℕ) (summary_time : ℚ)
    (req_times : List (String × List ℚ)) (elem : URLStats) : Except PyErr URLStats :=
  if ((total_lines : ℚ) - (err_lines : ℚ)) = 0 then .error .zeroDivisionError
  else if summary_time = 0 then .error .zeroDivisionError
  else if elem.count = 0 then .error .zeroDivisionError
  else
    match median ((alistGet req_times elem.url).getD []) with
    | .error e => .error e
    | .ok med =>
      .ok
        { elem with
          count_perc := round3 ((elem.count : ℚ) / ((total_lines : ℚ) - (err_lines : ℚ)) * 100)
          time_perc := round3 (elem.time_sum / summary_time * 100)
          time_avg := round3 (elem.time_sum / (elem.count : ℚ))
          time_med := round3 med }

/-- The finalization loop over the retained rows: each row is rewritten by
`finalize_row`; the first exception raised propagates out (the partially
rewritten list is then discarded with the whole call). -/
def finalize_rows (total_lines err_lines : ℕ) (summary_time : ℚ)
    (req_times : List (String × List ℚ)) : List URLStats → Except PyErr (List URLStats)
  | [] => .ok []
  | x :: xs =>
    match finalize_row total_lines err_lines summary_time req_times x with
    | .error e => .error e
    | .ok y =>
      match finalize_rows total_lines err_lines summary_time req_times xs with
      | .error e => .error e
      | .ok ys => .ok (y :: ys)

/-- `get_logfile_stats` from the source, with the injected parser's output
passed as the list of outcomes it yields.  After the loop:
`err_perc = err_lines / total_lines` (Python raises `ZeroDivisionError`
when no line was yielded); if `err_perc > ERROR_THRESHOLD` the run fails
with `RuntimeError`; otherwise the accumulated rows are sorted by
descending `time_sum`, truncated to `result_size`, and finalized row by
row. -/
def get_logfile_stats (outcomes : List (Option LogfileLineInfo)) (result_size : ℕ) :
    Except PyErr (List URLStats) :=
  let st := aggregate outcomes
  if st.total_lines = 0 then .error .zeroDivisionError
  else if ((st.err_lines : ℚ) / (st.total_lines : ℚ)) > ERROR_THRESHOLD then
    .error (.runtimeError "parsing error threshold exceeded")
  else
    finalize_rows st.total_lines st.err_lines st.summary_time st.req_times
      ((sortStats (st.stats.map (·.2))).take result_size)

/-! ## Concrete data used by witnesses -/

/-- A parsed record with the given URL and duration (the remaining fields
are irrelevant to aggregation). -/
def sampleRec (url : String) (rt : ℚ) : LogfileLineInfo :=
  ⟨"", "", "", "", "", url, 200, 0, "", "", "", "", "", rt⟩

/-- The spec's end-to-end example: `/a` with durations 0.1, 0.2, 0.3 and
`/b` with duration 1.0, four valid lines, no failures. -/
def c2outcomes : List (Option LogfileLineInfo) :=
  [some (sampleRec "/a" (1/10)), some (sampleRec "/a" (2/10)),
   some (sampleRec "/a" (3/10)), some (sampleRec "/b" 1)]

/-- 100 yielded outcomes of which 21 are parse failures. -/
def out21 : List (Option LogfileLineInfo) :=
  List.replicate 21 none ++ List.replicate 79 (some (sampleRec "/a" (1/10)))

/-- 100 yielded outcomes of which 20 are parse failures. -/
def out20 : List (Option LogfileLineInfo) :=
  List.replicate 20 none ++ List.replicate 80 (some (sampleRec "/a" (1/10)))

/-- A directory listing with one junk name and two well-formed logfile
names. -/
def selFiles : List String :=
  ["junk", "nginx-access-ui.log-20170630", "nginx-access-ui.log-20170701.gz"]

/-! ## Derived notions used in the statements -/

/-- The parseable embedded dates of a list of filenames: those the loop
can construct without an exception. -/
def parsedDates (files : List String) : List PyDate :=
  files.filterMap (fun f => (fileDate f).map (·.1))

/-- The invariant tying the `stats` dict to the `req_times` defaultdict:
a URL's accumulator counts exactly the durations recorded for it, and its
`time_max` is the greatest of them; URLs without an accumulator have no
recorded durations. -/
def StatsInv (st : AggState) : Prop :=
  (∀ url s, alistGet st.stats url = some s →
    ∃ ds, alistGet st.req_times url = some ds ∧ s.count = ds.length ∧
      s.time_max ∈ ds ∧ ∀ x ∈ ds, x ≤ s.time_max) ∧
  (∀ url, alistGet st.stats url = none → alistGet st.req_times url = none)

/-- Descending-by-`time_sum` ordering between rows. -/
def descTS (a b : URLStats) : Prop := b.time_sum ≤ a.time_sum

/-! ## Helper lemmas: association lists -/

theorem alistGet_set_self {α : Type} (l : List (String × α)) (k : String) (v : α) :
    alistGet (alistSet l k v) k = some v := by
  induction l with
  | nil => simp [alistGet, alistSet]
  | cons p t ih =>
    obtain ⟨k', v'⟩ := p
    by_cases h : k' = k
    · simp [alistGet, alistSet, h]
    · simp [alistGet, alistSet, h, ih]

theorem alistGet_set_ne {α : Type} (l : List (String × α)) (k k' : String) (v : α)
    (h : k' ≠ k) : alistGet (alistSet l k v) k' = alistGet l k' := by
  induction l with
  | nil => simp [alistGet, alistSet, Ne.symm h]
  | cons p t ih =>
    obtain ⟨k'', v''⟩ := p
    by_cases h2 : k'' = k
    · subst h2
      simp [alistGet, alistSet, Ne.symm h]
    · simp only [alistSet, if_neg h2, alistGet]
      by_cases h3 : k'' = k' <;> simp [h3, ih]

/-! ## Helper lemmas: date ordering -/

theorem PyDate.ltb_irrefl (a : PyDate) : a.ltb a = false := by
  simp [PyDate.ltb]

theorem PyDate.ltb_false_trans {a b c : PyDate} (h1 : a.ltb b = false)
    (h2 : b.ltb c = false) : a.ltb c = false := by
  obtain ⟨ay, am, ad⟩ := a; obtain ⟨by', bm, bd⟩ := b; obtain ⟨cy, cm, cd⟩ := c
  simp only [PyDate.ltb, Bool.or_eq_false_iff, Bool.and_eq_false_iff,
    decide_eq_false_iff_not, not_lt, beq_eq_false_iff_ne, ne_eq, beq_iff_eq] at *
  omega

theorem PyDate.ltb_false_of_lt_ge {a b c : PyDate} (h1 : b.ltb c = true)
    (h2 : a.ltb c = false) : a.ltb b = false := by
  obtain ⟨ay, am, ad⟩ := a; obtain ⟨by', bm, bd⟩ := b; obtain ⟨cy, cm, cd⟩ := c
  simp only [PyDate.ltb, Bool.or_eq_false_iff, Bool.and_eq_false_iff, Bool.or_eq_true,
    Bool.and_eq_true, decide_eq_false_iff_not, decide_eq_true_eq, not_lt,
    beq_eq_false_iff_ne, ne_eq, beq_iff_eq] at *
  omega

theorem date_min_ltb {d : PyDate} (h : 1900 ≤ d.year) : date_min.ltb d = true := by
  obtain ⟨dy, dm, dd⟩ := d
  simp only [PyDate.ltb, date_min, Bool.or_eq_true, Bool.and_eq_true, decide_eq_true_eq,
    beq_iff_eq]
  simp only at h
  omega

/-! ## Helper lemmas: the selector -/

theorem matchFilename_year {s : List Char} {y m d : ℕ} {ty : LogfileType}
    (h : matchFilename s = some (y, m, d, ty)) : 1900 ≤ y := by
  unfold matchFilename at h
  split at h
  case _ c15 y1 y2 y3 y4 m1 m2 d1 d2 rest =>
    split at h
    case isTrue hcond =>
      have hy : toNatDigits [y1, y2, y3, y4] = y := by
        split at h
        · exact congrArg (·.1) (Option.some_inj.mp h)
        · exact congrArg (·.1) (Option.some_inj.mp h)
        · exact absurd h (by simp)
      obtain ⟨-, -, -, hy12, -⟩ := hcond
      subst hy
      have e0 : '0'.toNat = 48 := rfl
      have e1 : '1'.toNat = 49 := rfl
      have e2 : '2'.toNat = 50 := rfl
      have e9 : '9'.toNat = 57 := rfl
      rcases hy12 with ⟨h1, h2⟩ | ⟨h1, h2⟩ <;> subst h1 <;> subst h2 <;>
        simp only [toNatDigits, List.foldl, e0, e1, e2, e9] <;> omega
    case isFalse => exact absurd h (by simp)
  case _ => exact absurd h (by simp)

theorem mkDate_year {y m d : ℕ} {dt : PyDate} (h : mkDate y m d = some dt) :
    dt.year = y := by
  unfold mkDate at h
  split at h
  · cases Option.some_inj.mp h; rfl
  · exact absurd h (by simp)

theorem fileDate_year {f : String} {d : PyDate} {ty : LogfileType}
    (h : fileDate f = some (d, ty)) : 1900 ≤ d.year := by
  unfold fileDate at h
  split at h
  · exact absurd h (by simp)
  case _ y m dd ty' hm =>
    split at h
    · exact absurd h (by simp)
    case _ dt hd =>
      cases Option.some_inj.mp h
      rw [mkDate_year hd]
      exact matchFilename_year hm

theorem select_loop_path (today : PyDate) (files : List String) :
    ∀ r : LogfileInfo, r.path ≠ none → (select_loop today files r).path ≠ none := by
  induction files with
  | nil => intro r h; simpa [select_loop] using h
  | cons f fs ih =>
    intro r h
    simp only [select_loop]
    cases hf : fileDate f with
    | none => exact ih r h
    | some p =>
      obtain ⟨d, ty⟩ := p
      by_cases hlt : r.date.ltb d = true
      · simp only [hlt, if_true]
        by_cases ht : d = today
        · simp [ht]
        · simpa [ht] using ih _ (by simp)
      · simp only [Bool.not_eq_true] at hlt
        simp only [hlt, Bool.false_eq_true, if_false]
        exact ih r h

theorem select_loop_activates (today : PyDate) (files : List String) :
    ∀ r : LogfileInfo, r.date = date_min → parsedDates files ≠ [] →
      (select_loop today files r).path ≠ none := by
  induction files with
  | nil => intro r _ h; exact absurd rfl h
  | cons f fs ih =>
    intro r hr h
    simp only [select_loop]
    cases hf : fileDate f with
    | none =>
      refine ih r hr ?_
      simpa [parsedDates, List.filterMap_cons, hf] using h
    | some p =>
      obtain ⟨d, ty⟩ := p
      have hlt : r.date.ltb d = true := by
        rw [hr]; exact date_min_ltb (fileDate_year hf)
      simp only [hlt, if_true]
      by_cases ht : d = today
      · simp [ht]
      · simpa [ht] using select_loop_path today fs _ (by simp)

theorem select_loop_const (today : PyDate) (files : List String)
    (hall : ∀ f ∈ files, fileDate f = none) :
    ∀ r : LogfileInfo, select_loop today files r = r := by
  induction files with
  | nil => intro r; rfl
  | cons f fs ih =>
    intro r
    simp only [select_loop, hall f (List.mem_cons_self f fs)]
    exact ih (fun g hg => hall g (List.mem_cons_of_mem f hg)) r

theorem select_loop_spec (today : PyDate) (files : List String) :
    ∀ r : LogfileInfo,
      (select_loop today files r).date = today ∨
        (((select_loop today files r).date = r.date ∨
            (select_loop today files r).date ∈ parsedDates files) ∧
          (select_loop today files r).date.ltb r.date = false ∧
          ∀ d ∈ parsedDates files, (select_loop today files r).date.ltb d = false) := by
  induction files with
  | nil =>
    intro r
    right
    simp [select_loop, parsedDates, PyDate.ltb_irrefl]
  | cons f fs ih =>
    intro r
    simp only [select_loop]
    cases hf : fileDate f with
    | none =>
      have hpd : parsedDates (f :: fs) = parsedDates fs := by
        simp [parsedDates, List.filterMap_cons, hf]
      rw [hpd]
      exact ih r
    | some p =>
      obtain ⟨d, ty⟩ := p
      have hpd : parsedDates (f :: fs) = d :: parsedDates fs := by
        simp [parsedDates, List.filterMap_cons, hf]
      rw [hpd]
      by_cases hlt : r.date.ltb d = true
      · simp only [hlt, if_true]
        by_cases ht : d = today
        · left; simp [ht]
        · simp only [ht, if_false]
          rcases ih ⟨some f, d, some ty⟩ with h1 | ⟨h2, h3, h4⟩
          · left; exact h1
          · right
            refine ⟨?_, ?_, ?_⟩
            · rcases h2 with h2 | h2
              · right; rw [h2]; exact List.mem_cons_self _ _
              · right; exact List.mem_cons_of_mem _ h2
            · exact PyDate.ltb_false_of_lt_ge hlt h3
            · intro d' hd'
              rcases List.mem_cons.mp hd' with hd' | hd'
              · subst hd'; exact h3
              · exact h4 d' hd'
      · simp only [Bool.not_eq_true] at hlt
        simp only [hlt, Bool.false_eq_true, if_false]
        rcases ih r with h1 | ⟨h2, h3, h4⟩
        · left; exact h1
        · right
          refine ⟨?_, h3, ?_⟩
          · rcases h2 with h2 | h2
            · left; exact h2
            · right; exact List.mem_cons_of_mem _ h2
          · intro d' hd'
            rcases List.mem_cons.mp hd' with hd' | hd'
            · subst hd'; exact PyDate.ltb_false_trans h3 hlt
            · exact h4 d' hd'

/-! ## Helper lemmas: the aggregation invariant -/

theorem statsInv_init : StatsInv initState := by
  constructor
  · intro url s h; simp [initState, alistGet] at h
  · intro url _; simp [initState, alistGet]

theorem statsInv_step (st : AggState) (o : Option LogfileLineInfo) (h : StatsInv st) :
    StatsInv (aggStep st o) := by
  obtain ⟨h1, h2⟩ := h
  cases o with
  | none => exact ⟨h1, h2⟩
  | some info =>
    cases hold : alistGet st.stats info.URL with
    | none =>
      constructor
      · intro url s hs
        simp only [aggStep, hold] at hs ⊢
        by_cases hu : url = info.URL
        · rw [hu, alistGet_set_self] at hs
          cases Option.some_inj.mp hs
          have hreq : alistGet st.req_times info.URL = none := h2 info.URL hold
          refine ⟨[info.request_time], ?_, by simp, by simp, by simp⟩
          rw [hu, alistGet_set_self, hreq]
          rfl
        · rw [alistGet_set_ne _ _ _ _ hu] at hs
          rw [alistGet_set_ne _ _ _ _ hu]
          exact h1 url s hs
      · intro url hs
        simp only [aggStep, hold] at hs ⊢
        by_cases hu : url = info.URL
        · rw [hu, alistGet_set_self] at hs
          exact absurd hs (by simp)
        · rw [alistGet_set_ne _ _ _ _ hu] at hs
          rw [alistGet_set_ne _ _ _ _ hu]
          exact h2 url hs
    | some sOld =>
      constructor
      · intro url s hs
        simp only [aggStep, hold] at hs ⊢
        by_cases hu : url = info.URL
        · rw [hu, alistGet_set_self] at hs
          cases Option.some_inj.mp hs
          obtain ⟨ds, hds, hcount, hmem, hbound⟩ := h1 info.URL sOld hold
          refine ⟨ds ++ [info.request_time], ?_, ?_, ?_, ?_⟩
          · rw [hu, alistGet_set_self, hds]
            rfl
          · simp [hcount]
          · rcases le_total sOld.time_max info.request_time with hle | hle
            · simp [max_eq_right hle]
            · rw [max_eq_left hle]
              exact List.mem_append_left _ hmem
          · intro x hx
            rcases List.mem_append.mp hx with hx | hx
            · exact le_trans (hbound x hx) (le_max_left _ _)
            · simp only [List.mem_singleton] at hx
              subst hx
              exact le_max_right _ _
        · rw [alistGet_set_ne _ _ _ _ hu] at hs
          rw [alistGet_set_ne _ _ _ _ hu]
          exact h1 url s hs
      · intro url hs
        simp only [aggStep, hold] at hs ⊢
        by_cases hu : url = info.URL
        · rw [hu, alistGet_set_self] at hs
          exact absurd hs (by simp)
        · rw [alistGet_set_ne _ _ _ _ hu] at hs
          rw [alistGet_set_ne _ _ _ _ hu]
          exact h2 url hs

theorem statsInv_foldl (l : List (Option LogfileLineInfo)) :
    ∀ st : AggState, StatsInv st → StatsInv (l.foldl aggStep st) := by
  induction l with
  | nil => intro st h; exact h
  | cons o l ih =>
    intro st h
    exact ih _ (statsInv_step st o h)

theorem statsInv_aggregate (outcomes : List (Option LogfileLineInfo)) :
    StatsInv (aggregate outcomes) :=
  statsInv_foldl outcomes initState statsInv_init

/-! ## Helper lemmas: finalization and sorting -/

theorem median_cases (l : List ℚ) :
    (∃ q, median l = .ok q) ∨ median l = .error .statisticsError := by
  simp only [median]
  split
  · right; rfl
  · split
    · left; exact ⟨_, rfl⟩
    · left; exact ⟨_, rfl⟩

theorem finalize_row_cases (t e : ℕ) (su : ℚ) (rq : List (String × List ℚ)) (x : URLStats) :
    (∃ y, finalize_row t e su rq x = .ok y) ∨
      finalize_row t e su rq x = .error .zeroDivisionError ∨
      finalize_row t e su rq x = .error .statisticsError := by
  unfold finalize_row
  split
  · right; left; rfl
  · split
    · right; left; rfl
    · split
      · right; left; rfl
      · rcases median_cases ((alistGet rq x.url).getD []) with ⟨q, hq⟩ | hq
        · rw [hq]; left; exact ⟨_, rfl⟩
        · rw [hq]; right; right; rfl

theorem finalize_rows_ne_runtime (t e : ℕ) (su : ℚ) (rq : List (String × List ℚ))
    (msg : String) :
    ∀ l : List URLStats, finalize_rows t e su rq l ≠ .error (.runtimeError msg) := by
  intro l
  induction l with
  | nil => simp [finalize_rows]
  | cons x xs ih =>
    simp only [finalize_rows]
    rcases finalize_row_cases t e su rq x with ⟨y, hy⟩ | hy | hy
    · rw [hy]
      cases hr : finalize_rows t e su rq xs with
      | error er =>
        intro hcon
        cases Except.error.inj hcon
        exact ih hr
      | ok ys => simp
    · rw [hy]; simp
    · rw [hy]; simp

theorem finalize_row_ok_fields {t e : ℕ} {su : ℚ} {rq : List (String × List ℚ)}
    {x y : URLStats} (h : finalize_row t e su rq x = .ok y) :
    y.time_sum = x.time_sum ∧ y.url = x.url ∧ y.count = x.count ∧
      y.time_max = x.time_max := by
  unfold finalize_row at h
  split at h
  · exact absurd h (by simp)
  · split at h
    · exact absurd h (by simp)
    · split at h
      · exact absurd h (by simp)
      · split at h
        · exact absurd h (by simp)
        · cases Except.ok.inj h
          exact ⟨rfl, rfl, rfl, rfl⟩

theorem finalize_rows_map_time_sum {t e : ℕ} {su : ℚ} {rq : List (String × List ℚ)} :
    ∀ {l rows : List URLStats}, finalize_rows t e su rq l = .ok rows →
      rows.map URLStats.time_sum = l.map URLStats.time_sum := by
  intro l
  induction l with
  | nil =>
    intro rows h
    simp only [finalize_rows] at h
    cases Except.ok.inj h
    rfl
  | cons x xs ih =>
    intro rows h
    simp only [finalize_rows] at h
    rcases hx : finalize_row t e su rq x with er | y <;> rw [hx] at h
    · exact absurd h (by simp)
    · rcases hr : finalize_rows t e su rq xs with er | ys <;> rw [hr] at h
      · exact absurd h (by simp)
      · cases Except.ok.inj h
        simp [ih hr, (finalize_row_ok_fields hx).1]

theorem mem_insertByTimeSum {x z : URLStats} :
    ∀ {l : List URLStats}, z ∈ insertByTimeSum x l → z = x ∨ z ∈ l := by
  intro l
  induction l with
  | nil => intro h; simp [insertByTimeSum] at h; exact Or.inl h
  | cons y ys ih =>
    intro h
    simp only [insertByTimeSum] at h
    split at h
    · rcases List.mem_cons.mp h with h | h
      · right; exact List.mem_cons.mpr (Or.inl h)
      · rcases ih h with h | h
        · left; exact h
        · right; exact List.mem_cons.mpr (Or.inr h)
    · rcases List.mem_cons.mp h with h | h
      · left; exact h
      · right; exact h

theorem pairwise_insertByTimeSum {x : URLStats} :
    ∀ {l : List URLStats}, l.Pairwise descTS → (insertByTimeSum x l).Pairwise descTS := by
  intro l
  induction l with
  | nil => intro _; simp [insertByTimeSum, List.pairwise_singleton]
  | cons y ys ih =>
    intro h
    rw [List.pairwise_cons] at h
    obtain ⟨hy, hys⟩ := h
    simp only [insertByTimeSum]
    split
    case isTrue hlt =>
      rw [List.pairwise_cons]
      refine ⟨?_, ih hys⟩
      intro z hz
      rcases mem_insertByTimeSum hz with hz | hz
      · subst hz; exact le_of_lt hlt
      · exact hy z hz
    case isFalse hlt =>
      rw [List.pairwise_cons]
      refine ⟨?_, List.pairwise_cons.mpr ⟨hy, hys⟩⟩
      intro z hz
      rcases List.mem_cons.mp hz with hz | hz
      · subst hz; exact le_of_not_lt hlt
      · exact le_trans (hy z hz) (le_of_not_lt hlt)

theorem sortStats_pairwise (l : List URLStats) : (sortStats l).Pairwise descTS := by
  induction l with
  | nil => simp [sortStats]
  | cons x xs ih => exact pairwise_insertByTimeSum ih

/-! ## The claims -/

/-- C1, counterexample: on an input yielding zero lines the claim says
`get_logfile_stats` completes and returns an empty result; in fact
`err_lines / total_lines` is `0 / 0` and the call raises
`ZeroDivisionError`, so it neither completes nor returns `.ok []`. -/
theorem C1_counterexample :
    get_logfile_stats [] 10 = .error .zeroDivisionError ∧
      get_logfile_stats [] 10 ≠ .ok [] := by
  have h : get_logfile_stats [] 10 = .error .zeroDivisionError := by
    with_unfolding_all rfl
  refine ⟨h, ?_⟩
  rw [h]
  simp

/-- C1, amended: for an input yielding zero lines, `get_logfile_stats`
raises `ZeroDivisionError` from the error-rate division
`err_lines / total_lines`; it does not complete with an empty report
(callers must short-circuit before calling the aggregator when no lines
exist). -/
theorem C1_zero_lines (outcomes : List (Option LogfileLineInfo)) (result_size : ℕ)
    (h : outcomes = []) :
    get_logfile_stats outcomes result_size = .error .zeroDivisionError := by
  subst h
  rfl

/-- C1, witness for the amended theorem at the concrete empty input. -/
theorem C1_zero_lines_witness :
    get_logfile_stats [] 5 = .error .zeroDivisionError :=
  C1_zero_lines [] 5 rfl

/-- C2: on the spec's end-to-end example — 4 valid lines, 0 failures,
`/a` with durations 0.1, 0.2, 0.3 and `/b` with duration 1.0, report size
10 — `get_logfile_stats` returns `/b` first (`time_sum` 1.0, `count_perc`
25.000, `time_perc` 62.500, `time_avg` 1.000, `time_med` 1.000) and `/a`
second (`time_sum` 0.6, `count_perc` 75.000, `time_perc` 37.500,
`time_avg` 0.200, `time_med` 0.200). -/
theorem C2_end_to_end :
    get_logfile_stats c2outcomes 10 =
      .ok [⟨"/b", 1, 25, 1, 125/2, 1, 1, 1⟩,
           ⟨"/a", 3, 75, 3/5, 75/2, 1/5, 3/10, 1/5⟩] := by
  with_unfolding_all rfl

/-- C3: whenever at least one line was yielded, `get_logfile_stats`
raises `RuntimeError("parsing error threshold exceeded")` if and only if
`err_lines / total_lines > ERROR_THRESHOLD` (strictly), and in that case
it produces no report rows (the result is the error, not an `.ok`). -/
theorem C3_error_threshold (outcomes : List (Option LogfileLineInfo)) (result_size : ℕ)
    (h : 0 < (aggregate outcomes).total_lines) :
    get_logfile_stats outcomes result_size =
        .error (.runtimeError "parsing error threshold exceeded") ↔
      ERROR_THRESHOLD <
        ((aggregate outcomes).err_lines : ℚ) / ((aggregate outcomes).total_lines : ℚ) := by
  simp only [get_logfile_stats]
  rw [if_neg (by omega)]
  by_cases h2 : ERROR_THRESHOLD <
      ((aggregate outcomes).err_lines : ℚ) / ((aggregate outcomes).total_lines : ℚ)
  · rw [if_pos h2]
    simp [h2]
  · rw [if_neg h2]
    simp only [h2, iff_false]
    exact finalize_rows_ne_runtime _ _ _ _ _ _

/-- C3, witness: with 100 yielded lines the run fails for 21 parse
failures (0.21 > 0.2) and succeeds for 20 (0.20 is not > 0.2). -/
theorem C3_error_threshold_witness :
    get_logfile_stats out21 10 =
        .error (.runtimeError "parsing error threshold exceeded") ∧
      get_logfile_stats out20 10 = .ok [⟨"/a", 80, 100, 8, 100, 1/10, 1/10, 1/10⟩] := by
  constructor
  · exact (C3_error_threshold out21 10 (by with_unfolding_all decide)).mpr
      (by with_unfolding_all decide)
  · with_unfolding_all rfl

/-- C4: whenever at least one filename matches the pattern with a
constructible calendar date, `select_last_logfile` returns a
`LogfileInfo` whose date is either the maximum parseable embedded date of
the listing, or `today` — the latter because scanning stops early at the
first file whose embedded date equals today's date. -/
theorem C4_selected_date_max (today : PyDate) (files : List String)
    (h : parsedDates files ≠ []) :
    ∃ info, select_last_logfile today files = some info ∧
      (info.date = today ∨
        (info.date ∈ parsedDates files ∧
          ∀ d ∈ parsedDates files, info.date.ltb d = false)) := by
  have hpath := select_loop_activates today files ⟨none, date_min, none⟩ rfl h
  refine ⟨select_loop today files ⟨none, date_min, none⟩, ?_, ?_⟩
  · simp only [select_last_logfile]
    rw [if_pos hpath]
  · rcases select_loop_spec today files ⟨none, date_min, none⟩ with ht | ⟨horig, -, hmax⟩
    · exact Or.inl ht
    · right
      rcases horig with hmin | hmem
      · exfalso
        obtain ⟨d, hd⟩ := List.exists_mem_of_ne_nil _ h
        obtain ⟨f, hf, hfd⟩ := List.mem_filterMap.mp hd
        obtain ⟨⟨d', ty⟩, hsome, hd'⟩ := Option.map_eq_some'.mp hfd
        have h19 : 1900 ≤ d.year := by
          have := fileDate_year hsome
          simp only at hd'
          rwa [hd'] at this
        have hfalse := hmax d hd
        rw [hmin] at hfalse
        rw [show (⟨none, date_min, none⟩ : LogfileInfo).date = date_min from rfl] at hfalse
        rw [date_min_ltb h19] at hfalse
        exact Bool.noConfusion hfalse
      · exact ⟨hmem, hmax⟩

/-- C4, witness at a concrete listing: the chosen file embeds the maximal
date 2017-07-01. -/
theorem C4_selected_date_max_witness :
    ∃ info, select_last_logfile ⟨2025, 5, 1⟩ selFiles = some info ∧
      (info.date = ⟨2025, 5, 1⟩ ∨
        (info.date ∈ parsedDates selFiles ∧
          ∀ d ∈ parsedDates selFiles, info.date.ltb d = false)) :=
  C4_selected_date_max ⟨2025, 5, 1⟩ selFiles (by decide)

/-- C5: a line on which `parse_logfile_line` raises (the regex does not
match, or a numeric field fails to coerce) makes `parse_logfile` yield
`None` — the `ValueError` is caught, nothing else escapes; and any yielded
record is exactly the fully-coerced record `parse_logfile_line` returned,
never a partial one. -/
theorem C5_failure_yields_none :
    (∀ line e, parse_logfile_line line = .error e →
      parse_logfile_outcome line = none) ∧
    (∀ line info, parse_logfile_outcome line = some info →
      parse_logfile_line line = .ok info) := by
  constructor
  · intro line e h
    simp [parse_logfile_outcome, h]
  · intro line info h
    simp only [parse_logfile_outcome] at h
    cases hp : parse_logfile_line line with
    | ok i => rw [hp] at h; cases Option.some_inj.mp h; rfl
    | error e => rw [hp] at h; exact Option.noConfusion h

/-- C5, witness: the empty line fails the grammar and is yielded as
`None`; a well-formed line is yielded as its full record. -/
theorem C5_failure_yields_none_witness :
    parse_logfile_outcome "" = none ∧
      parse_logfile_line "a b c [t] \"GET /x p\" 200 1 \"r\" \"u\" \"f\" \"i\" \"b\" 0.1" =
        .ok ⟨"a", "b", "c", "t", "GET /x p", "/x", 200, 1, "r", "u", "f", "i", "b", 1/10⟩ := by
  constructor
  · exact C5_failure_yields_none.1 "" "incorrect line structure" (by with_unfolding_all rfl)
  · exact C5_failure_yields_none.2 _ _ (by with_unfolding_all rfl)

/-- C6, counterexample: the claim says every accumulator update — the
first observation of a URL included — stores `time_sum` rounded to 3
decimal places.  On the first observation the code stores the raw
duration: after one line for `/a` with duration 0.0001 the stored
`time_sum` is 0.0001, whereas the claimed rounding of 0 + 0.0001 gives
0.000 ≠ 0.0001. -/
theorem C6_counterexample :
    alistGet (aggregate [some (sampleRec "/a" (1/10000))]).stats "/a" =
        some ⟨"/a", 1, 0, 1/10000, 0, 0, 1/10000, 0⟩ ∧
      round3 (0 + 1/10000) ≠ (1/10000 : ℚ) := by
  constructor
  · with_unfolding_all rfl
  · with_unfolding_all decide

/-- C6, amended: for every successfully parsed line, if the URL already
has an accumulator it is updated with `count + 1`,
`time_sum := round3 (time_sum + duration)` and
`time_max := max time_max duration`; on the first observation of a URL
the accumulator is created with `count = 1` and
`time_sum = time_max = duration` — the raw duration, without rounding.
In both cases the duration is appended to the URL's duration list and
added to `summary_time`, and `total_lines` is incremented while
`err_lines` is not. -/
theorem C6_update_step (st : AggState) (info : LogfileLineInfo) :
    (aggStep st (some info)).total_lines = st.total_lines + 1 ∧
    (aggStep st (some info)).err_lines = st.err_lines ∧
    (aggStep st (some info)).summary_time = st.summary_time + info.request_time ∧
    alistGet (aggStep st (some info)).req_times info.URL =
      some (((alistGet st.req_times info.URL).getD []) ++ [info.request_time]) ∧
    (∀ s, alistGet st.stats info.URL = some s →
      alistGet (aggStep st (some info)).stats info.URL =
        some { s with count := s.count + 1
                      time_sum := round3 (s.time_sum + info.request_time)
                      time_max := max s.time_max info.request_time }) ∧
    (alistGet st.stats info.URL = none →
      alistGet (aggStep st (some info)).stats info.URL =
        some ⟨info.URL, 1, 0, info.request_time, 0, 0, info.request_time, 0⟩) := by
  refine ⟨rfl, rfl, rfl, ?_, ?_, ?_⟩
  · simp only [aggStep]
    exact alistGet_set_self _ _ _
  · intro s hs
    simp only [aggStep, hs]
    exact alistGet_set_self _ _ _
  · intro hs
    simp only [aggStep, hs]
    exact alistGet_set_self _ _ _

/-- C6, witness: one concrete update of each kind — a first observation
stores the raw duration, a second observation stores the rounded sum. -/
theorem C6_update_step_witness :
    alistGet (aggStep initState (some (sampleRec "/a" (1/10)))).stats "/a" =
        some ⟨"/a", 1, 0, 1/10, 0, 0, 1/10, 0⟩ ∧
      alistGet
          (aggStep (aggStep initState (some (sampleRec "/a" (1/10))))
            (some (sampleRec "/a" (2/10)))).stats "/a" =
        some ⟨"/a", 2, 0, round3 (1/10 + 2/10), 0, 0, max (1/10 : ℚ) (2/10), 0⟩ := by
  constructor
  · exact (C6_update_step initState (sampleRec "/a" (1/10))).2.2.2.2.2
      (by with_unfolding_all rfl)
  · exact (C6_update_step (aggStep initState (some (sampleRec "/a" (1/10))))
      (sampleRec "/a" (2/10))).2.2.2.2.1 ⟨"/a", 1, 0, 1/10, 0, 0, 1/10, 0⟩
      (by with_unfolding_all rfl)

/-- C7: when no filename both matches the naming pattern and embeds a
constructible calendar date, `select_last_logfile` returns `None` and
raises nothing; a single skipped entry (one the loop's `try` block fails
on, e.g. a matching name with month 13) leaves the selection over the
remaining entries unchanged; and a name that matches the pattern but
whose date `datetime.date` rejects is exactly such a skipped entry. -/
theorem C7_no_match_returns_none :
    (∀ today files, (∀ f ∈ files, fileDate f = none) →
      select_last_logfile today files = none) ∧
    (∀ today f files, fileDate f = none →
      select_last_logfile today (f :: files) = select_last_logfile today files) ∧
    (∀ f y m d ty, matchFilename (String.data f) = some (y, m, d, ty) →
      mkDate y m d = none → fileDate f = none) := by
  refine ⟨?_, ?_, ?_⟩
  · intro today files hall
    simp [select_last_logfile, select_loop_const today files hall]
  · intro today f files hf
    simp [select_last_logfile, select_loop, hf]
  · intro f y m d ty h1 h2
    simp [fileDate, h1, h2]

/-- C7, witness: a listing containing only a matching name with the
impossible month 13 yields `None`; prepending that name to a listing does
not change the selection. -/
theorem C7_no_match_returns_none_witness :
    select_last_logfile ⟨2025, 5, 1⟩ ["nginx-access-ui.log-20241301", "junk"] = none ∧
      select_last_logfile ⟨2025, 5, 1⟩
          ("nginx-access-ui.log-20241301" :: ["nginx-access-ui.log-20170630"]) =
        select_last_logfile ⟨2025, 5, 1⟩ ["nginx-access-ui.log-20170630"] := by
  constructor
  · exact C7_no_match_returns_none.1 ⟨2025, 5, 1⟩ _ (by decide)
  · exact C7_no_match_returns_none.2.1 ⟨2025, 5, 1⟩ _ _ (by decide)

/-- C8: when `get_logfile_stats` succeeds with report size `N > 0`, the
returned list has at most `N` rows, is ordered by descending `time_sum`,
its rows carry (in order) the `time_sum`s of the top `N` of the sorted
accumulated statistics, and every row kept has `time_sum` at least that
of every row truncated away. -/
theorem C8_sorted_topN (outcomes : List (Option LogfileLineInfo)) (result_size : ℕ)
    (_hrs : 0 < result_size) (rows : List URLStats)
    (h : get_logfile_stats outcomes result_size = .ok rows) :
    rows.length ≤ result_size ∧
    rows.Pairwise descTS ∧
    rows.map URLStats.time_sum =
      ((sortStats ((aggregate outcomes).stats.map Prod.snd)).take result_size).map
        URLStats.time_sum ∧
    ∀ x ∈ rows, ∀ y ∈ (sortStats ((aggregate outcomes).stats.map Prod.snd)).drop result_size,
      y.time_sum ≤ x.time_sum := by
  simp only [get_logfile_stats] at h
  split at h
  · exact absurd h (by simp)
  · split at h
    · exact absurd h (by simp)
    · have hmap := finalize_rows_map_time_sum h
      have hsorted := sortStats_pairwise ((aggregate outcomes).stats.map Prod.snd)
      have htake : (((sortStats ((aggregate outcomes).stats.map Prod.snd)).take
          result_size)).Pairwise descTS :=
        List.Pairwise.sublist (List.take_sublist _ _) hsorted
      have hlen : rows.length =
          ((sortStats ((aggregate outcomes).stats.map Prod.snd)).take result_size).length := by
        have := congrArg List.length hmap
        simp only [List.length_map] at this
        exact this
      refine ⟨?_, ?_, hmap, ?_⟩
      · rw [hlen]
        exact List.length_take_le result_size _
      · have h1 : (((sortStats ((aggregate outcomes).stats.map Prod.snd)).take
            result_size).map URLStats.time_sum).Pairwise (fun a b => b ≤ a) := by
          rw [List.pairwise_map]
          exact htake
        rw [← hmap, List.pairwise_map] at h1
        exact h1
      · intro x hx y hy
        have hsplit : sortStats ((aggregate outcomes).stats.map Prod.snd) =
            (sortStats ((aggregate outcomes).stats.map Prod.snd)).take result_size ++
              (sortStats ((aggregate outcomes).stats.map Prod.snd)).drop result_size :=
          (List.take_append_drop _ _).symm
        have hpw := hsorted
        rw [hsplit, List.pairwise_append] at hpw
        have hxts : x.time_sum ∈ ((sortStats ((aggregate outcomes).stats.map
            Prod.snd)).take result_size).map URLStats.time_sum := by
          rw [← hmap]
          exact List.mem_map_of_mem _ hx
        obtain ⟨x', hx', hxeq⟩ := List.mem_map.mp hxts
        rw [← hxeq]
        exact hpw.2.2 x' hx' y hy

/-- C8, witness at the end-to-end example with report size 1: only the
top row (`/b`) is kept, and it dominates the truncated row. -/
theorem C8_sorted_topN_witness :
    ([⟨"/b", 1, 25, 1, 125/2, 1, 1, 1⟩] : List URLStats).length ≤ 1 ∧
    ([⟨"/b", 1, 25, 1, 125/2, 1, 1, 1⟩] : List URLStats).Pairwise descTS ∧
    ([⟨"/b", 1, 25, 1, 125/2, 1, 1, 1⟩] : List URLStats).map URLStats.time_sum =
      ((sortStats ((aggregate c2outcomes).stats.map Prod.snd)).take 1).map
        URLStats.time_sum ∧
    ∀ x ∈ ([⟨"/b", 1, 25, 1, 125/2, 1, 1, 1⟩] : List URLStats),
      ∀ y ∈ (sortStats ((aggregate c2outcomes).stats.map Prod.snd)).drop 1,
        y.time_sum ≤ x.time_sum :=
  C8_sorted_topN c2outcomes 1 (by decide) _ (by with_unfolding_all rfl)

/-- C9: after aggregating any outcome list (hence at every intermediate
point of the loop — every intermediate state is the aggregation of a
prefix), each URL present in the `stats` dict has `count` equal to the
length of its duration list in `req_times`, and `time_max` equal to the
greatest recorded duration. -/
theorem C9_count_max_invariant (outcomes : List (Option LogfileLineInfo))
    (url : String) (s : URLStats)
    (h : alistGet (aggregate outcomes).stats url = some s) :
    ∃ ds, alistGet (aggregate outcomes).req_times url = some ds ∧
      s.count = ds.length ∧ s.time_max ∈ ds ∧ ∀ x ∈ ds, x ≤ s.time_max :=
  (statsInv_aggregate outcomes).1 url s h

/-- C9, witness at a concrete two-line run for `/a`. -/
theorem C9_count_max_invariant_witness :
    ∃ ds, alistGet (aggregate [some (sampleRec "/a" (1/10)),
        some (sampleRec "/a" (3/10))]).req_times "/a" = some ds ∧
      (⟨"/a", 2, 0, 2/5, 0, 0, 3/10, 0⟩ : URLStats).count = ds.length ∧
      (⟨"/a", 2, 0, 2/5, 0, 0, 3/10, 0⟩ : URLStats).time_max ∈ ds ∧
      ∀ x ∈ ds, x ≤ (⟨"/a", 2, 0, 2/5, 0, 0, 3/10, 0⟩ : URLStats).time_max :=
  C9_count_max_invariant _ "/a" _ (by with_unfolding_all rfl)

/-- C10: when at least one line was yielded and the error-rate check
passes (`err_lines / total_lines ≤ ERROR_THRESHOLD`), at least one line
parsed successfully: `err_lines < total_lines`, so
`total_lines - err_lines ≥ 1` and the rational denominator
`total_lines - err_lines` used by the `count_perc` division in the
finalization loop is nonzero. -/
theorem C10_count_perc_denominator (outcomes : List (Option LogfileLineInfo))
    (h1 : 0 < (aggregate outcomes).total_lines)
    (h2 : ((aggregate outcomes).err_lines : ℚ) / ((aggregate outcomes).total_lines : ℚ) ≤
      ERROR_THRESHOLD) :
    (aggregate outcomes).err_lines < (aggregate outcomes).total_lines ∧
    1 ≤ (aggregate outcomes).total_lines - (aggregate outcomes).err_lines ∧
    ((aggregate outcomes).total_lines : ℚ) - ((aggregate outcomes).err_lines : ℚ) ≠ 0 := by
  have hTpos : (0 : ℚ) < ((aggregate outcomes).total_lines : ℚ) := by exact_mod_cast h1
  rw [div_le_iff₀ hTpos, ERROR_THRESHOLD] at h2
  have h5q : ((5 * (aggregate outcomes).err_lines : ℕ) : ℚ) ≤
      ((aggregate outcomes).total_lines : ℚ) := by
    push_cast
    linarith
  have h5 : 5 * (aggregate outcomes).err_lines ≤ (aggregate outcomes).total_lines := by
    exact_mod_cast h5q
  have hET : (aggregate outcomes).err_lines < (aggregate outcomes).total_lines := by omega
  refine ⟨hET, by omega, ?_⟩
  have : ((aggregate outcomes).err_lines : ℚ) < ((aggregate outcomes).total_lines : ℚ) := by
    exact_mod_cast hET
  exact sub_ne_zero.mpr (ne_of_gt this)

/-- C10, witness at the 20-of-100-failures run: the denominator is 80. -/
theorem C10_count_perc_denominator_witness :
    (aggregate out20).err_lines < (aggregate out20).total_lines ∧
    1 ≤ (aggregate out20).total_lines - (aggregate out20).err_lines ∧
    ((aggregate out20).total_lines : ℚ) - ((aggregate out20).err_lines : ℚ) ≠ 0 :=
  C10_count_perc_denominator out20 (by with_unfolding_all decide)
    (by with_unfolding_all decide)

end LogAnalyzer
